import Mathlib

/-!
Verification development for the alpha submission pipeline (`alpha_commit.py`).

The embedding models, from the source:
* Python `str.strip` and the line-oriented pending-queue file
  (`load`, `_remove_alpha_id_from_file`);
* the six-gate eligibility filter (`save_candidate_alpha_ids`);
* the submit/poll state machine (`BrainAPIClient.submit_alpha`), driven by
  response scripts and producing an event trace (submit requests, poll
  requests, sleeps, the diagnostic check log);
* the batch driver (`submit_alpha_ids`), including its `KeyboardInterrupt`
  handler and the outer `except Exception` handler.
-/

namespace AlphaCommit

/-- The ASCII whitespace characters removed by Python `str.strip()`:
space, tab, newline, carriage return, vertical tab, form feed. -/
def isPySpace (c : Char) : Bool :=
  c = ' ' || c = '\t' || c = '\n' || c = '\r' || c = Char.ofNat 11 || c = Char.ofNat 12

/-- `str.strip()` on a character list: drop whitespace from the front,
then from the back (reverse, drop, reverse). -/
def stripChars (l : List Char) : List Char :=
  ((l.dropWhile isPySpace).reverse.dropWhile isPySpace).reverse

/-- Python `line.strip()`. -/
def pyStrip (s : String) : String := String.mk (stripChars s.data)

/-- `[line.strip() for line in f.readlines() if line.strip()]`
(src lines 250-251 and 273-274): the queue file's lines, stripped, with
blank / whitespace-only lines dropped.  A file is modelled as its list of
lines (without trailing newlines). -/
def load_alpha_ids (file : List String) : List String :=
  (file.map pyStrip).filter (fun l => l ≠ "")

/-- `_remove_alpha_id_from_file` (src lines 237-262): re-read the file,
and only if `alpha_id` is present, `list.remove` it (first occurrence) and
rewrite the whole remaining list (mode `'w'`, one id per line); if absent,
the file is not rewritten at all. -/
def remove_alpha_id_from_file (file : List String) (alpha_id : String) : List String :=
  let alpha_ids := load_alpha_ids file
  if alpha_id ∈ alpha_ids then alpha_ids.erase alpha_id else file

/-- One element of a `checks` list: the pair
`(item.get('name'), item.get('result'))` — or `(item.get('name'), item.get('value'))`
for the poll-response body.  `none` models Python `None` (key absent or value null). -/
abbrev CheckItem := Option String × Option String

/-- `{item.get(k1): item.get(k2) for item in items}.get(key)` — the dict
comprehension keeps the last binding for a duplicated name, and `.get`
yields `None` (here `none`) for an absent key or a `None` value. -/
def dict_get (items : List CheckItem) (key : String) : Option String :=
  match items.reverse.find? (fun it => it.1 == some key) with
  | some it => it.2
  | none => none

/-- One parsed row of the simulated-alphas CSV: the id from the first
column (already `str(...).strip()`ed), and the parsed `checks` list, or
`none` when no checks column was found or parsing raised (the row is
skipped). -/
structure CandidateRow where
  alpha_id : String
  checks : Option (List CheckItem)
deriving DecidableEq

/-- `required_checks` (src lines 169-176): the six gates that must all be
`'PASS'`. -/
def required_checks : List String :=
  ["LOW_SHARPE", "LOW_FITNESS", "LOW_TURNOVER", "HIGH_TURNOVER",
   "CONCENTRATED_WEIGHT", "LOW_SUB_UNIVERSE_SHARPE"]

/-- The per-row qualification test (src lines 201-215): a row with a parsed
checks list qualifies iff every required gate's `result` is exactly `'PASS'`
in the name-to-result mapping; a skipped row never qualifies. -/
def row_qualifies (row : CandidateRow) : Bool :=
  match row.checks with
  | none => false
  | some items => required_checks.all (fun m => dict_get items m == some "PASS")

/-- `save_candidate_alpha_ids` (src lines 152-227) as a pure transform on
parsed rows: the ids of qualifying rows, in encounter order, written to the
output file (full overwrite). -/
def save_candidate_alpha_ids (rows : List CandidateRow) : List String :=
  rows.filterMap (fun r => if row_qualifies r then some r.alpha_id else none)

/-! ## Submission state machine (`BrainAPIClient.submit_alpha`, src lines 92-134)

The HTTP transport is a pair of response scripts: `subs n` is the status of
the `n`-th POST to the submit endpoint, and `polls k` the `k`-th GET
response (status, parsed `Retry-After` header, and the body's `is.checks`
list).  A run returns the function's boolean result together with its
observable event trace; the unbounded `while True` poll loop is run on
explicit fuel, `none` standing for a run that has not yet resolved. -/

/-- An observable event of one `submit_alpha` run. -/
inductive Ev
  | submitReq
  | pollReq
  | sleepFor (t : ℚ)
  | logChecks (entries : List (String × Option String))
deriving DecidableEq

/-- One poll (GET) response: HTTP status, the parsed numeric
`Retry-After` header (`float(res.headers.get('Retry-After', 0))`, so a
missing header is `0`), and the body's `is.checks` list as
`(get('name'), get('value'))` pairs. -/
structure PollResp where
  status : Nat
  retryAfter : ℚ
  checks : List CheckItem
deriving DecidableEq

/-- The gates interpolated into the rejection log message (src lines
124-128), in message order: `check_results.get` is called for exactly
these five names. -/
def rejection_log_gates : List String :=
  ["LOW_SHARPE", "LOW_FITNESS", "HIGH_TURNOVER", "LOW_SUB_UNIVERSE_SHARPE",
   "SELF_CORRELATION"]

/-- The `logger.error(msg)` diagnostic event: each logged gate paired with
its value from the `name`-to-`value` mapping of the body's checks. -/
def rejection_log (checks : List CheckItem) : Ev :=
  Ev.logChecks (rejection_log_gates.map (fun g => (g, dict_get checks g)))

/-- The `while True` poll loop (src lines 112-132): read `Retry-After`;
if nonzero, sleep exactly that long and poll again; if zero, status 200
resolves to `True`, anything else logs the check diagnostic and resolves
to `False`.  `k` is the index of the next poll response; the loop itself
has no bound, so it is run on fuel and `none` means "still polling". -/
def poll_loop (polls : Nat → PollResp) : Nat → Nat → Option Bool × List Ev
  | 0, _ => (none, [])
  | fuel + 1, k =>
    let r := polls k
    if r.retryAfter = 0 then
      if r.status = 200 then (some true, [Ev.pollReq])
      else (some false, [Ev.pollReq, rejection_log r.checks])
    else
      let rest := poll_loop polls fuel (k + 1)
      (rest.1, Ev.pollReq :: Ev.sleepFor r.retryAfter :: rest.2)

/-- The `for attempt in range(5)` submit loop (src lines 97-134):
status 201 enters the poll loop; 400 or 403 returns `False` at once; any
other status sleeps 3 and retries; falling off the loop returns `False`.
`attempt` is the index of the next POST, `n` the attempts remaining. -/
def submit_loop (subs : Nat → Nat) (polls : Nat → PollResp) (pollFuel : Nat) :
    Nat → Nat → Option Bool × List Ev
  | _, 0 => (some false, [])
  | attempt, n + 1 =>
    if subs attempt = 201 then
      let pr := poll_loop polls pollFuel 0
      (pr.1, Ev.submitReq :: pr.2)
    else if subs attempt = 400 ∨ subs attempt = 403 then
      (some false, [Ev.submitReq])
    else
      let rest := submit_loop subs polls pollFuel (attempt + 1) n
      (rest.1, Ev.submitReq :: Ev.sleepFor 3 :: rest.2)

/-- `submit_alpha`: the full run, 5 submit attempts. -/
def submit_alpha (subs : Nat → Nat) (polls : Nat → PollResp) (pollFuel : Nat) :
    Option Bool × List Ev :=
  submit_loop subs polls pollFuel 0 5

/-- Is this event a POST to the submit endpoint? -/
def Ev.isSubmit : Ev → Bool
  | Ev.submitReq => true
  | _ => false

/-- Is this event a GET (poll) of the submit endpoint? -/
def Ev.isPoll : Ev → Bool
  | Ev.pollReq => true
  | _ => false

/-- Number of POST (submit) requests in a trace. -/
def submit_count (tr : List Ev) : Nat := tr.countP Ev.isSubmit

/-- Number of GET (poll) requests in a trace. -/
def poll_count (tr : List Ev) : Nat := tr.countP Ev.isPoll

/-- The trace of `n` non-terminal submit attempts: each is a POST followed
by the fixed 3-unit backoff sleep. -/
def submit_retry_trace : Nat → List Ev
  | 0 => []
  | n + 1 => Ev.submitReq :: Ev.sleepFor 3 :: submit_retry_trace n

/-- The trace of `n` polls that each received a nonzero `Retry-After`,
starting at poll index `k`: each is a GET followed by a sleep of exactly
the server-suggested interval. -/
def poll_wait_trace (polls : Nat → PollResp) (k : Nat) : Nat → List Ev
  | 0 => []
  | n + 1 =>
    Ev.pollReq :: Ev.sleepFor (polls k).retryAfter :: poll_wait_trace polls (k + 1) n

/-! ## Batch driver (`submit_alpha_ids`, src lines 265-323)

One `brain.submit_alpha(alpha_id)` call is abstracted by an oracle giving,
per loop index, either its boolean result, a `KeyboardInterrupt` raised
during the call, or a generic `Exception` raised during the call.  The
on-disk queue file is threaded through `_remove_alpha_id_from_file`, and
every file state written between submissions is recorded in `snaps`. -/

/-- The behaviour of one `brain.submit_alpha` call. -/
inductive SubRes
  | ok (b : Bool)
  | interrupt
  | err
deriving DecidableEq

/-- Python exception classes relevant to the driver.  `KeyboardInterrupt`
derives from `BaseException`, not `Exception`, so the driver's
`except Exception` clause does not catch it. -/
inductive PyExc
  | keyboardInterrupt
  | otherException
deriving DecidableEq

/-- Whether `except Exception` catches this exception class. -/
def isExceptionSubclass : PyExc → Bool
  | .keyboardInterrupt => false
  | .otherException => true

/-- The state of the driver's `while` loop (src lines 291-309). -/
structure LoopState where
  successful : List String
  failed : List String
  idx : Nat
  file : List String
  snaps : List (List String)
  exc : Option PyExc
deriving DecidableEq

/-- The driver loop: while fewer successes than the target and ids remain,
run one submission; on a normal result, append the id to the matching list,
immediately remove it from the file (recording the written file state), and
advance; an exception raised by the call aborts the loop.  `fuel` bounds the
iterations; `alpha_ids.length` always suffices since `idx` grows by one per
round. -/
def driver_loop (alpha_ids : List String) (oracle : Nat → SubRes) (num : Nat) :
    Nat → LoopState → LoopState
  | 0, st => st
  | fuel + 1, st =>
    if h : st.successful.length < num ∧ st.idx < alpha_ids.length then
      match oracle st.idx with
      | .interrupt => { st with exc := some .keyboardInterrupt }
      | .err => { st with exc := some .otherException }
      | .ok b =>
        let aid := alpha_ids.get ⟨st.idx, h.2⟩
        let succ := if b then st.successful ++ [aid] else st.successful
        let fld := if b then st.failed else st.failed ++ [aid]
        let file := remove_alpha_id_from_file st.file aid
        driver_loop alpha_ids oracle num fuel
          { successful := succ, failed := fld, idx := st.idx + 1,
            file := file, snaps := st.snaps ++ [file], exc := none }
    else st

instance {α β : Type} [DecidableEq α] [DecidableEq β] : DecidableEq (Except α β)
  | .error a, .error b => decidable_of_iff (a = b) (by simp)
  | .error _, .ok _ => isFalse (by simp)
  | .ok _, .error _ => isFalse (by simp)
  | .ok a, .ok b => decidable_of_iff (a = b) (by simp)

/-- The final tally logged at src lines 317-320. -/
structure DriverReport where
  successful : List String
  failed : List String
  warned : Bool
deriving DecidableEq

/-- How a `submit_alpha_ids` call that did not raise ended. -/
inductive DriverOutput
  | noFile
  | emptyQueue
  | errorCaught
  | finished (r : DriverReport)
deriving DecidableEq

/-- Everything observable about one `submit_alpha_ids` run: its result
(`Except.error e` models the call raising `e` to its caller), the counts
logged by the `KeyboardInterrupt` handler (succeeded, failed, remaining),
the sequence of file states written between submissions, and the final
file. -/
structure DriverRun where
  result : Except PyExc DriverOutput
  interruptReport : Option (Nat × Nat × Nat)
  snaps : List (List String)
  finalFile : List String
deriving DecidableEq

/-- The driver's epilogue: with no exception, the final tally is logged
and the warning compares the successes against the (clamped) target; a
`KeyboardInterrupt` is reported (counts so far and remaining) and
re-raised, and since it is not an `Exception` subclass the outer
`except Exception` clause lets it propagate; any other exception is caught
there and only logged. -/
def driver_finish (alpha_ids : List String) (st : LoopState) (num : Nat) : DriverRun :=
  match st.exc with
  | none =>
    { result := .ok (.finished
        { successful := st.successful, failed := st.failed,
          warned := decide (st.successful.length < num) }),
      interruptReport := none, snaps := st.snaps, finalFile := st.file }
  | some e =>
    { result := if isExceptionSubclass e then .ok .errorCaught else .error e,
      interruptReport :=
        if e = PyExc.keyboardInterrupt then
          some (st.successful.length, st.failed.length, alpha_ids.length - st.idx)
        else none,
      snaps := st.snaps, finalFile := st.file }

/-- `submit_alpha_ids` (src lines 265-323): load the queue (a missing file
or an empty queue returns early); clamp the target to the queue length;
run the loop and finish as in `driver_finish`. -/
def submit_alpha_ids (file : Option (List String)) (num_to_submit : Nat)
    (oracle : Nat → SubRes) : DriverRun :=
  match file with
  | none =>
    { result := .ok .noFile, interruptReport := none, snaps := [], finalFile := [] }
  | some f =>
    if load_alpha_ids f = [] then
      { result := .ok .emptyQueue, interruptReport := none, snaps := [], finalFile := f }
    else
      driver_finish (load_alpha_ids f)
        (driver_loop (load_alpha_ids f) oracle
          (if num_to_submit > (load_alpha_ids f).length then (load_alpha_ids f).length
           else num_to_submit)
          (load_alpha_ids f).length
          { successful := [], failed := [], idx := 0, file := f, snaps := [], exc := none })
        (if num_to_submit > (load_alpha_ids f).length then (load_alpha_ids f).length
         else num_to_submit)

section StripLemmas

theorem dropWhile_self_dropWhile (p : Char → Bool) (l : List Char) :
    (l.dropWhile p).dropWhile p = l.dropWhile p := by
  induction l with
  | nil => rfl
  | cons a t ih =>
    by_cases h : p a
    · simp [List.dropWhile_cons, h, ih]
    · simp [List.dropWhile_cons, h]

theorem dropWhile_head_false (p : Char → Bool) (l : List Char) (a : Char) (t : List Char)
    (h : l.dropWhile p = a :: t) : p a = false := by
  induction l with
  | nil => simp at h
  | cons b u ih =>
    by_cases hb : p b
    · rw [List.dropWhile_cons, if_pos hb] at h
      exact ih h
    · rw [List.dropWhile_cons, if_neg hb] at h
      cases h
      simpa using hb

theorem stripChars_idem (l : List Char) : stripChars (stripChars l) = stripChars l := by
  set p := isPySpace with hp
  set A := l.dropWhile p with hA
  set C := A.reverse.dropWhile p with hC
  have hB : stripChars l = C.reverse := rfl
  have hCC : C.dropWhile p = C := by
    rw [hC]; exact dropWhile_self_dropWhile p A.reverse
  -- the front of `C.reverse` is the front of `A`, which `dropWhile p` left in place
  have hfront : C.reverse.dropWhile p = C.reverse := by
    rcases hA' : A with _ | ⟨a, A'⟩
    · have : C = [] := by rw [hC, hA']; rfl
      simp [this]
    · have ha : p a = false := dropWhile_head_false p l a A' (by rw [← hA, hA'])
      have hrev : A.reverse = A'.reverse ++ [a] := by rw [hA']; simp
      have hsplit : C = A'.reverse.dropWhile p ++ [a] := by
        rw [hC, hrev, List.dropWhile_append]
        by_cases he : (A'.reverse.dropWhile p).isEmpty
        · simp [he, List.dropWhile_cons, ha,
            List.isEmpty_iff.mp he]
        · simp [he]
      rw [hsplit]
      simp [List.dropWhile_cons, ha]
  show ((C.reverse.dropWhile p).reverse.dropWhile p).reverse = C.reverse
  rw [hfront]
  simp [hCC]

theorem pyStrip_idem (s : String) : pyStrip (pyStrip s) = pyStrip s := by
  unfold pyStrip
  exact congrArg String.mk (stripChars_idem s.data)

theorem mem_load_clean {file : List String} {x : String}
    (hx : x ∈ load_alpha_ids file) : pyStrip x = x ∧ x ≠ "" := by
  unfold load_alpha_ids at hx
  rw [List.mem_filter] at hx
  obtain ⟨hmem, hne⟩ := hx
  rw [List.mem_map] at hmem
  obtain ⟨y, _, rfl⟩ := hmem
  refine ⟨pyStrip_idem y, ?_⟩
  simpa using hne

theorem load_of_clean {l : List String} (h : ∀ x ∈ l, pyStrip x = x ∧ x ≠ "") :
    load_alpha_ids l = l := by
  unfold load_alpha_ids
  induction l with
  | nil => rfl
  | cons a t ih =>
    have ha := h a (List.mem_cons_self a t)
    have ht : ∀ x ∈ t, pyStrip x = x ∧ x ≠ "" := fun x hx => h x (List.mem_cons_of_mem a hx)
    have ih' := ih ht
    unfold load_alpha_ids at ih'
    simp only [List.map_cons, List.filter_cons, ha.1]
    rw [if_pos (by simpa using ha.2)]
    rw [ih']

theorem load_idem (file : List String) :
    load_alpha_ids (load_alpha_ids file) = load_alpha_ids file :=
  load_of_clean (fun _ hx => mem_load_clean hx)

end StripLemmas

example : load_alpha_ids ["  a ", "", " ", "b"] = ["a", "b"] := by decide
example : remove_alpha_id_from_file ["a", "b", "a"] "a" = ["b", "a"] := by decide
example : remove_alpha_id_from_file ["a", " ", "b"] "z" = ["a", " ", "b"] := by decide

/-- Claim C7: queue removal is idempotent and a full overwrite.  If the
identifier is absent from the loaded queue, the persisted file is left
completely unchanged; if it is present, the file is rewritten to the loaded
queue with the identifier erased, so (for a duplicate-free queue, the
data-model invariant) the result contains exactly the prior identifiers
minus the removed one. -/
theorem remove_alpha_id_correct :
    (∀ file id, id ∉ load_alpha_ids file → remove_alpha_id_from_file file id = file) ∧
    (∀ file id, id ∈ load_alpha_ids file →
      remove_alpha_id_from_file file id = (load_alpha_ids file).erase id) ∧
    (∀ file id, id ∈ load_alpha_ids file → (load_alpha_ids file).Nodup →
      ∀ x, x ∈ remove_alpha_id_from_file file id ↔ x ∈ load_alpha_ids file ∧ x ≠ id) := by
  refine ⟨fun file id h => ?_, fun file id h => ?_, fun file id h hnd x => ?_⟩
  · unfold remove_alpha_id_from_file
    simp [h]
  · unfold remove_alpha_id_from_file
    simp [h]
  · unfold remove_alpha_id_from_file
    simp only [h, if_pos]
    rw [List.Nodup.mem_erase_iff hnd]
    exact and_comm

/-- Witness for C7 at concrete files: removing an absent id is a no-op
(raw file untouched, blanks included); removing a present id rewrites the
file to the loaded queue minus that id. -/
theorem remove_alpha_id_correct_witness :
    remove_alpha_id_from_file ["a", " ", "b"] "z" = ["a", " ", "b"] ∧
    remove_alpha_id_from_file ["a", "b", "c"] "b" = ["a", "c"] ∧
    ("b" ∈ remove_alpha_id_from_file ["a", "b", "c"] "b" ↔
      "b" ∈ load_alpha_ids ["a", "b", "c"] ∧ "b" ≠ "b") := by
  refine ⟨remove_alpha_id_correct.1 ["a", " ", "b"] "z" (by decide), ?_, ?_⟩
  · have h := remove_alpha_id_correct.2.1 ["a", "b", "c"] "b" (by decide)
    rw [h]; decide
  · exact remove_alpha_id_correct.2.2 ["a", "b", "c"] "b" (by decide) (by decide) "b"

/-- Claim C9: when the identifier is present, removal keeps every other
line in its original relative order — the loaded queue splits as
`l₁ ++ id :: l₂` around the first occurrence, and the rewritten file is
exactly `l₁ ++ l₂`; the only other change relative to the raw file is the
load step's stripping and dropping of blank / whitespace-only lines. -/
theorem remove_preserves_order (file : List String) (id : String)
    (h : id ∈ load_alpha_ids file) :
    ∃ l₁ l₂, id ∉ l₁ ∧ load_alpha_ids file = l₁ ++ id :: l₂ ∧
      remove_alpha_id_from_file file id = l₁ ++ l₂ := by
  obtain ⟨l₁, l₂, hnot, hsplit, herase⟩ := List.exists_erase_eq h
  refine ⟨l₁, l₂, hnot, hsplit, ?_⟩
  unfold remove_alpha_id_from_file
  simp only [h, if_pos]
  exact herase

/-- Witness for C9 at a concrete file with a leading blank line. -/
theorem remove_preserves_order_witness :
    ∃ l₁ l₂, "b" ∉ l₁ ∧ load_alpha_ids [" ", "a", "b", "c"] = l₁ ++ "b" :: l₂ ∧
      remove_alpha_id_from_file [" ", "a", "b", "c"] "b" = l₁ ++ l₂ :=
  remove_preserves_order [" ", "a", "b", "c"] "b" (by decide)

/-- Claim C10: if the loaded queue holds the same identifier on several
lines, one removal deletes only the first occurrence: the rewritten file is
the queue with just that occurrence dropped, and the identifier is still
present in it. -/
theorem remove_first_occurrence_only (file : List String) (id : String)
    (l₁ l₂ : List String) (hsplit : load_alpha_ids file = l₁ ++ id :: l₂)
    (hnot : id ∉ l₁) (hdup : id ∈ l₂) :
    remove_alpha_id_from_file file id = l₁ ++ l₂ ∧
      id ∈ remove_alpha_id_from_file file id := by
  have hmem : id ∈ load_alpha_ids file := by
    rw [hsplit]; exact List.mem_append_right l₁ (List.mem_cons_self id l₂)
  have h1 : remove_alpha_id_from_file file id = l₁ ++ l₂ := by
    unfold remove_alpha_id_from_file
    simp only [hmem, if_pos]
    rw [hsplit, List.erase_append_right _ hnot, List.erase_cons_head]
  exact ⟨h1, by rw [h1]; exact List.mem_append_right l₁ hdup⟩

/-- Witness for C10 at a concrete duplicated queue. -/
theorem remove_first_occurrence_only_witness :
    remove_alpha_id_from_file ["x", "y", "x"] "x" = ["y", "x"] ∧
      "x" ∈ remove_alpha_id_from_file ["x", "y", "x"] "x" := by
  have h := remove_first_occurrence_only ["x", "y", "x"] "x" [] ["y", "x"]
    (by decide) (by decide) (by decide)
  simpa using h

/-- Claim C4: a row with a parsed check-report qualifies iff every one of
the six required gates maps to exactly `'PASS'`; a row whose report could
not be located or parsed never qualifies; an identifier appears in the
filter output iff some input row carries it and qualifies; and gates
outside the six are ignored — two reports that agree on the six required
lookups qualify identically. -/
theorem save_candidate_filter_correct :
    (∀ id items, row_qualifies ⟨id, some items⟩ = true ↔
      ∀ g ∈ required_checks, dict_get items g = some "PASS") ∧
    (∀ id, row_qualifies ⟨id, none⟩ = false) ∧
    (∀ rows id, id ∈ save_candidate_alpha_ids rows ↔
      ∃ r ∈ rows, r.alpha_id = id ∧ row_qualifies r = true) ∧
    (∀ id id' items items',
      (∀ g ∈ required_checks, dict_get items g = dict_get items' g) →
      row_qualifies ⟨id, some items⟩ = row_qualifies ⟨id', some items'⟩) := by
  refine ⟨fun id items => ?_, fun id => rfl, fun rows id => ?_, fun id id' items items' h => ?_⟩
  · unfold row_qualifies
    rw [List.all_eq_true]
    constructor
    · intro h g hg
      have := h g hg
      exact eq_of_beq this
    · intro h g hg
      exact beq_iff_eq.mpr (h g hg)
  · unfold save_candidate_alpha_ids
    rw [List.mem_filterMap]
    constructor
    · rintro ⟨r, hr, hval⟩
      by_cases hq : row_qualifies r = true
      · rw [if_pos hq] at hval
        exact ⟨r, hr, Option.some_injective _ hval, hq⟩
      · rw [if_neg hq] at hval
        cases hval
    · rintro ⟨r, hr, rfl, hq⟩
      exact ⟨r, hr, by rw [if_pos hq]⟩
  · unfold row_qualifies
    rw [Bool.eq_iff_iff, List.all_eq_true, List.all_eq_true]
    constructor
    · intro hh g hg
      simpa [← h g hg] using hh g hg
    · intro hh g hg
      simpa [h g hg] using hh g hg

/-- Witness for C4: a report with all six gates `PASS` (plus an ignored
warning gate) qualifies; flipping one required gate to `FAIL` disqualifies;
the qualifying row's id is in the output. -/
theorem save_candidate_filter_correct_witness :
    row_qualifies ⟨"abc", some
      [(some "LOW_SHARPE", some "PASS"), (some "LOW_FITNESS", some "PASS"),
       (some "LOW_TURNOVER", some "PASS"), (some "HIGH_TURNOVER", some "PASS"),
       (some "CONCENTRATED_WEIGHT", some "PASS"),
       (some "LOW_SUB_UNIVERSE_SHARPE", some "PASS"),
       (some "UNITS", some "WARNING")]⟩ = true ∧
    row_qualifies ⟨"bad", some
      [(some "LOW_SHARPE", some "PASS"), (some "LOW_FITNESS", some "PASS"),
       (some "LOW_TURNOVER", some "FAIL"), (some "HIGH_TURNOVER", some "PASS"),
       (some "CONCENTRATED_WEIGHT", some "PASS"),
       (some "LOW_SUB_UNIVERSE_SHARPE", some "PASS")]⟩ = false ∧
    "abc" ∈ save_candidate_alpha_ids
      [⟨"abc", some
        [(some "LOW_SHARPE", some "PASS"), (some "LOW_FITNESS", some "PASS"),
         (some "LOW_TURNOVER", some "PASS"), (some "HIGH_TURNOVER", some "PASS"),
         (some "CONCENTRATED_WEIGHT", some "PASS"),
         (some "LOW_SUB_UNIVERSE_SHARPE", some "PASS"),
         (some "UNITS", some "WARNING")]⟩, ⟨"skipped", none⟩] := by
  refine ⟨?_, ?_, ?_⟩
  · exact (save_candidate_filter_correct.1 "abc" _).mpr (by decide)
  · by_contra h
    have h' : row_qualifies ⟨"bad", some
      [(some "LOW_SHARPE", some "PASS"), (some "LOW_FITNESS", some "PASS"),
       (some "LOW_TURNOVER", some "FAIL"), (some "HIGH_TURNOVER", some "PASS"),
       (some "CONCENTRATED_WEIGHT", some "PASS"),
       (some "LOW_SUB_UNIVERSE_SHARPE", some "PASS")]⟩ = true := by
      revert h
      cases row_qualifies ⟨"bad", _⟩ <;> simp
    have := (save_candidate_filter_correct.1 "bad" _).mp h' "LOW_TURNOVER" (by decide)
    simp [dict_get] at this
  · refine (save_candidate_filter_correct.2.2.1 _ "abc").mpr ?_
    refine ⟨_, List.mem_cons_self _ _, rfl, ?_⟩
    exact (save_candidate_filter_correct.1 "abc" _).mpr (by decide)

@[simp] theorem submit_count_nil : submit_count [] = 0 := rfl

@[simp] theorem submit_count_cons (e : Ev) (tr : List Ev) :
    submit_count (e :: tr) = submit_count tr + (if Ev.isSubmit e then 1 else 0) :=
  List.countP_cons _ _ _

@[simp] theorem poll_count_nil : poll_count [] = 0 := rfl

@[simp] theorem poll_count_cons (e : Ev) (tr : List Ev) :
    poll_count (e :: tr) = poll_count tr + (if Ev.isPoll e then 1 else 0) :=
  List.countP_cons _ _ _

section StateMachineLemmas

theorem submit_count_retry_trace (n : Nat) :
    submit_count (submit_retry_trace n) = n := by
  induction n with
  | zero => rfl
  | succ n ih => simp [submit_retry_trace, ih, Ev.isSubmit]

theorem poll_count_retry_trace (n : Nat) :
    poll_count (submit_retry_trace n) = 0 := by
  induction n with
  | zero => rfl
  | succ n ih => simp [submit_retry_trace, ih, Ev.isPoll]

theorem poll_count_wait_trace (polls : Nat → PollResp) (n : Nat) :
    ∀ k, poll_count (poll_wait_trace polls k n) = n := by
  induction n with
  | zero => intro k; rfl
  | succ n ih =>
    intro k
    simp [poll_wait_trace, ih (k + 1), Ev.isPoll]

theorem poll_loop_no_submit (polls : Nat → PollResp) :
    ∀ fuel k, submit_count (poll_loop polls fuel k).2 = 0 := by
  intro fuel
  induction fuel with
  | zero => intro k; rfl
  | succ fuel ih =>
    intro k
    unfold poll_loop
    by_cases hr : (polls k).retryAfter = 0
    · by_cases hs : (polls k).status = 200 <;>
        simp [hr, hs, rejection_log, Ev.isSubmit]
    · simp [hr, ih (k + 1), Ev.isSubmit]

theorem submit_loop_count_le (subs : Nat → Nat) (polls : Nat → PollResp) (pollFuel : Nat) :
    ∀ n attempt, submit_count (submit_loop subs polls pollFuel attempt n).2 ≤ n := by
  intro n
  induction n with
  | zero => intro attempt; simp [submit_loop]
  | succ n ih =>
    intro attempt
    unfold submit_loop
    by_cases h201 : subs attempt = 201
    · simp [h201, poll_loop_no_submit polls pollFuel 0, Ev.isSubmit]
    · by_cases hrej : subs attempt = 400 ∨ subs attempt = 403
      · simp [h201, hrej, Ev.isSubmit]
      · have := ih (attempt + 1)
        simp [h201, hrej, Ev.isSubmit]
        omega

theorem submit_loop_rejected (subs : Nat → Nat) (polls : Nat → PollResp) (pollFuel : Nat) :
    ∀ i attempt n, i < n → (subs (attempt + i) = 400 ∨ subs (attempt + i) = 403) →
    (∀ j, j < i → subs (attempt + j) ≠ 201 ∧ subs (attempt + j) ≠ 400 ∧
      subs (attempt + j) ≠ 403) →
    submit_loop subs polls pollFuel attempt n =
      (some false, submit_retry_trace i ++ [Ev.submitReq]) := by
  intro i
  induction i with
  | zero =>
    intro attempt n hn hrej _
    obtain ⟨m, rfl⟩ : ∃ m, n = m + 1 := ⟨n - 1, by omega⟩
    have h201 : subs attempt ≠ 201 := by
      rcases hrej with h | h <;> simp [Nat.add_zero] at h <;> omega
    unfold submit_loop
    rw [if_neg (by simpa using h201), if_pos (by simpa using hrej)]
    rfl
  | succ i ih =>
    intro attempt n hn hrej hpre
    obtain ⟨m, rfl⟩ : ∃ m, n = m + 1 := ⟨n - 1, by omega⟩
    have h0 := hpre 0 (Nat.succ_pos i)
    rw [Nat.add_zero] at h0
    unfold submit_loop
    rw [if_neg h0.1, if_neg (by push_neg; exact ⟨h0.2.1, h0.2.2⟩)]
    have hshift : attempt + 1 + i = attempt + (i + 1) := by omega
    have := ih (attempt + 1) m (by omega) (by rw [hshift]; exact hrej)
      (fun j hj => by
        have := hpre (j + 1) (by omega)
        have hsh : attempt + 1 + j = attempt + (j + 1) := by omega
        rw [hsh]; exact this)
    rw [this]
    rfl

theorem submit_loop_exhaust (subs : Nat → Nat) (polls : Nat → PollResp) (pollFuel : Nat) :
    ∀ n attempt,
    (∀ j, j < n → subs (attempt + j) ≠ 201 ∧ subs (attempt + j) ≠ 400 ∧
      subs (attempt + j) ≠ 403) →
    submit_loop subs polls pollFuel attempt n = (some false, submit_retry_trace n) := by
  intro n
  induction n with
  | zero => intro attempt _; rfl
  | succ n ih =>
    intro attempt hpre
    have h0 := hpre 0 (Nat.succ_pos n)
    rw [Nat.add_zero] at h0
    unfold submit_loop
    rw [if_neg h0.1, if_neg (by push_neg; exact ⟨h0.2.1, h0.2.2⟩)]
    have := ih (attempt + 1) (fun j hj => by
      have := hpre (j + 1) (by omega)
      have hsh : attempt + 1 + j = attempt + (j + 1) := by omega
      rw [hsh]; exact this)
    rw [this]
    rfl

theorem poll_loop_spec (polls : Nat → PollResp) :
    ∀ n k fuel,
    (∀ j, j < n → (polls (k + j)).retryAfter ≠ 0) →
    (polls (k + n)).retryAfter = 0 →
    n + 1 ≤ fuel →
    poll_loop polls fuel k =
      (some (decide ((polls (k + n)).status = 200)),
       poll_wait_trace polls k n ++
         (if (polls (k + n)).status = 200 then [Ev.pollReq]
          else [Ev.pollReq, rejection_log (polls (k + n)).checks])) := by
  intro n
  induction n with
  | zero =>
    intro k fuel _ hz hfuel
    obtain ⟨f, rfl⟩ : ∃ f, fuel = f + 1 := ⟨fuel - 1, by omega⟩
    rw [Nat.add_zero] at hz
    unfold poll_loop
    rw [if_pos hz]
    by_cases hs : (polls k).status = 200 <;> simp [hs, poll_wait_trace]
  | succ n ih =>
    intro k fuel hnz hz hfuel
    obtain ⟨f, rfl⟩ : ∃ f, fuel = f + 1 := ⟨fuel - 1, by omega⟩
    have h0 : ¬(polls k).retryAfter = 0 := by simpa using hnz 0 (Nat.succ_pos n)
    have hsh : k + 1 + n = k + (n + 1) := by omega
    have hrec := ih (k + 1) f
      (fun j hj => by
        have := hnz (j + 1) (by omega)
        have h2 : k + 1 + j = k + (j + 1) := by omega
        rw [h2]; exact this)
      (by rw [hsh]; exact hz) (by omega)
    unfold poll_loop
    rw [if_neg h0, hrec]
    simp [poll_wait_trace, hsh]

theorem submit_alpha_of_first201 (subs : Nat → Nat) (polls : Nat → PollResp)
    (pollFuel : Nat) (h201 : subs 0 = 201) :
    submit_alpha subs polls pollFuel =
      ((poll_loop polls pollFuel 0).1,
       Ev.submitReq :: (poll_loop polls pollFuel 0).2) := by
  show submit_loop subs polls pollFuel 0 5 = _
  unfold submit_loop
  rw [if_pos h201]

end StateMachineLemmas

/-- Claim C2: the submit phase issues at most 5 POSTs; a 400 or 403 on the
first terminal attempt ends the run at once with result `False`, no further
submits and no polls, each earlier non-terminal attempt having slept the
fixed 3-unit backoff; and five non-terminal statuses exhaust the budget
with result `False` and the poll phase never entered. -/
theorem submit_alpha_submit_phase (subs : Nat → Nat) (polls : Nat → PollResp)
    (pollFuel : Nat) :
    submit_count (submit_alpha subs polls pollFuel).2 ≤ 5 ∧
    (∀ i, i < 5 → (subs i = 400 ∨ subs i = 403) →
      (∀ j, j < i → subs j ≠ 201 ∧ subs j ≠ 400 ∧ subs j ≠ 403) →
      submit_alpha subs polls pollFuel =
        (some false, submit_retry_trace i ++ [Ev.submitReq]) ∧
      submit_count (submit_alpha subs polls pollFuel).2 = i + 1 ∧
      poll_count (submit_alpha subs polls pollFuel).2 = 0) ∧
    ((∀ j, j < 5 → subs j ≠ 201 ∧ subs j ≠ 400 ∧ subs j ≠ 403) →
      submit_alpha subs polls pollFuel = (some false, submit_retry_trace 5) ∧
      poll_count (submit_alpha subs polls pollFuel).2 = 0) := by
  refine ⟨submit_loop_count_le subs polls pollFuel 5 0, ?_, ?_⟩
  · intro i hi hrej hpre
    have h : submit_alpha subs polls pollFuel =
        (some false, submit_retry_trace i ++ [Ev.submitReq]) :=
      submit_loop_rejected subs polls pollFuel i 0 5 hi (by simpa using hrej)
        (fun j hj => by simpa using hpre j hj)
    refine ⟨h, ?_, ?_⟩
    · rw [h]
      have h1 := submit_count_retry_trace i
      simp only [submit_count] at h1 ⊢
      rw [List.countP_append, h1]
      rfl
    · rw [h]
      have h2 := poll_count_retry_trace i
      simp only [poll_count] at h2 ⊢
      rw [List.countP_append, h2]
      rfl
  · intro hpre
    have h : submit_alpha subs polls pollFuel = (some false, submit_retry_trace 5) :=
      submit_loop_exhaust subs polls pollFuel 5 0 (fun j hj => by simpa using hpre j hj)
    refine ⟨h, ?_⟩
    rw [h]
    exact poll_count_retry_trace 5

/-- Witness for C2: immediate 400 on the first attempt ends after one
POST; five straight 500s exhaust the budget with five POST-plus-backoff
rounds. -/
theorem submit_alpha_submit_phase_witness :
    (0 : Nat) < 5 ∧
    submit_alpha (fun _ => 400) (fun _ => ⟨200, 0, []⟩) 1 =
      (some false, [Ev.submitReq]) ∧
    submit_alpha (fun _ => 500) (fun _ => ⟨200, 0, []⟩) 1 =
      (some false, submit_retry_trace 5) := by
  refine ⟨by decide, ?_, ?_⟩
  · have h := (submit_alpha_submit_phase (fun _ => 400) (fun _ => ⟨200, 0, []⟩) 1).2.1 0
      (by decide) (Or.inl rfl) (fun j hj => absurd hj (by omega))
    simpa [submit_retry_trace] using h.1
  · exact ((submit_alpha_submit_phase (fun _ => 500) (fun _ => ⟨200, 0, []⟩) 1).2.2
      (fun j _ => ⟨by norm_num, by norm_num, by norm_num⟩)).1

/-- Claim C3: once a submit attempt is accepted with 201, the machine
polls; a script of `n` nonzero `Retry-After` values followed by a zero one
produces exactly `n + 1` polls, sleeping exactly each server-suggested
interval, with no local cap (`n` is arbitrary, only the fuel of the
embedding must cover it); at the zero, status 200 resolves to `True` and
any other status to `False`. -/
theorem submit_alpha_poll_phase (subs : Nat → Nat) (polls : Nat → PollResp)
    (pollFuel n : Nat)
    (h201 : subs 0 = 201)
    (hnz : ∀ j, j < n → (polls j).retryAfter ≠ 0)
    (hz : (polls n).retryAfter = 0)
    (hfuel : n + 1 ≤ pollFuel) :
    submit_alpha subs polls pollFuel =
      (some (decide ((polls n).status = 200)),
       Ev.submitReq :: (poll_wait_trace polls 0 n ++
         (if (polls n).status = 200 then [Ev.pollReq]
          else [Ev.pollReq, rejection_log (polls n).checks]))) ∧
    poll_count (submit_alpha subs polls pollFuel).2 = n + 1 := by
  have hp := poll_loop_spec polls n 0 pollFuel
    (fun j hj => by simpa using hnz j hj) (by simpa using hz) hfuel
  rw [Nat.zero_add] at hp
  have h := submit_alpha_of_first201 subs polls pollFuel h201
  rw [hp] at h
  refine ⟨h, ?_⟩
  rw [h]
  by_cases hs : (polls n).status = 200 <;>
    simp [hs, List.countP_append, poll_count, Ev.isPoll, rejection_log,
      poll_count_wait_trace polls n 0] <;>
  · have := poll_count_wait_trace polls n 0
    simp [poll_count] at this
    omega

/-- Witness for C3: two nonzero waits of 1 then a zero with status 200
give three polls, two exact sleeps, and `True`. -/
theorem submit_alpha_poll_phase_witness :
    submit_alpha (fun _ => 201)
      (fun j => if j < 2 then ⟨200, 1, []⟩ else ⟨200, 0, []⟩) 3 =
      (some true,
       [Ev.submitReq, Ev.pollReq, Ev.sleepFor 1, Ev.pollReq, Ev.sleepFor 1,
        Ev.pollReq]) := by
  have h := submit_alpha_poll_phase (fun _ => 201)
      (fun j => if j < 2 then ⟨200, 1, []⟩ else ⟨200, 0, []⟩) 3 2 rfl
      (fun j hj => by simp [hj]) (by norm_num) (by norm_num)
  rw [h.1]
  norm_num [poll_wait_trace]

/-- Counterexample to claim C5 as stated: at a concrete unfavorable poll,
the logged per-gate summary names exactly the five gates of the message —
it does not cover the filter's six required gates: `LOW_TURNOVER` and
`CONCENTRATED_WEIGHT` are never looked up, while `SELF_CORRELATION`,
which is outside the six, is. -/
theorem rejection_log_gates_cex :
    (submit_alpha (fun _ => 201) (fun _ => ⟨403, 0, []⟩) 1).2 =
      [Ev.submitReq, Ev.pollReq,
       Ev.logChecks [("LOW_SHARPE", none), ("LOW_FITNESS", none),
         ("HIGH_TURNOVER", none), ("LOW_SUB_UNIVERSE_SHARPE", none),
         ("SELF_CORRELATION", none)]] ∧
    "LOW_TURNOVER" ∈ required_checks ∧ "LOW_TURNOVER" ∉ rejection_log_gates ∧
    "CONCENTRATED_WEIGHT" ∈ required_checks ∧
    "CONCENTRATED_WEIGHT" ∉ rejection_log_gates ∧
    "SELF_CORRELATION" ∈ rejection_log_gates ∧
    "SELF_CORRELATION" ∉ required_checks := by
  exact ⟨by decide, by decide, by decide, by decide, by decide, by decide, by decide⟩

/-- Claim C5 (amended): when a poll resolves unfavorably (`Retry-After`
zero, status not 200), the machine builds the name-to-value map of the
body's `is.checks` list and logs a summary of exactly the five gates
`LOW_SHARPE, LOW_FITNESS, HIGH_TURNOVER, LOW_SUB_UNIVERSE_SHARPE,
SELF_CORRELATION` (not the filter's `LOW_TURNOVER` or
`CONCENTRATED_WEIGHT`), then returns the rejected outcome `False`. -/
theorem submit_alpha_rejection_log (subs : Nat → Nat) (polls : Nat → PollResp)
    (pollFuel n : Nat)
    (h201 : subs 0 = 201)
    (hnz : ∀ j, j < n → (polls j).retryAfter ≠ 0)
    (hz : (polls n).retryAfter = 0)
    (hst : (polls n).status ≠ 200)
    (hfuel : n + 1 ≤ pollFuel) :
    (submit_alpha subs polls pollFuel).1 = some false ∧
    (submit_alpha subs polls pollFuel).2 =
      Ev.submitReq :: (poll_wait_trace polls 0 n ++
        [Ev.pollReq, Ev.logChecks (rejection_log_gates.map
          (fun g => (g, dict_get (polls n).checks g)))]) := by
  have hp := poll_loop_spec polls n 0 pollFuel
    (fun j hj => by simpa using hnz j hj) (by simpa using hz) hfuel
  rw [Nat.zero_add] at hp
  have h := submit_alpha_of_first201 subs polls pollFuel h201
  rw [hp] at h
  rw [h]
  simp [hst, rejection_log]

/-- Witness for C5 (amended) at a concrete unfavorable poll whose body
carries a `LOW_SHARPE` check value. -/
theorem submit_alpha_rejection_log_witness :
    (submit_alpha (fun _ => 201)
      (fun _ => ⟨409, 0, [(some "LOW_SHARPE", some "false")]⟩) 1).1 = some false ∧
    (submit_alpha (fun _ => 201)
      (fun _ => ⟨409, 0, [(some "LOW_SHARPE", some "false")]⟩) 1).2 =
      [Ev.submitReq, Ev.pollReq,
       Ev.logChecks [("LOW_SHARPE", some "false"), ("LOW_FITNESS", none),
         ("HIGH_TURNOVER", none), ("LOW_SUB_UNIVERSE_SHARPE", none),
         ("SELF_CORRELATION", none)]] := by
  have h := submit_alpha_rejection_log (fun _ => 201)
      (fun _ => ⟨409, 0, [(some "LOW_SHARPE", some "false")]⟩) 1 0 rfl
      (fun j hj => absurd hj (by omega)) rfl (by norm_num) (by norm_num)
  refine ⟨h.1, ?_⟩
  rw [h.2]
  decide

example :
    (submit_alpha_ids (some ["a", "b", "c"]) 2
      (fun j => SubRes.ok (j ≠ 1))).result =
      Except.ok (DriverOutput.finished ⟨["a", "c"], ["b"], false⟩) := by decide

example :
    (submit_alpha_ids (some ["a", "b"]) 2
      (fun j => if j = 0 then SubRes.ok true else SubRes.interrupt)) =
      { result := Except.error PyExc.keyboardInterrupt,
        interruptReport := some (1, 0, 1), snaps := [["b"]], finalFile := ["b"] } := by
  decide

section DriverLemmas

theorem clamp_eq_min (a b : Nat) : (if a > b then b else a) = min a b := by
  rw [Nat.min_def]
  by_cases h : a > b
  · rw [if_pos h, if_neg (by omega)]
  · rw [if_neg h, if_pos (by omega)]

theorem driver_loop_no_exc (alpha_ids : List String) (oracle : Nat → SubRes)
    (num : Nat) (hok : ∀ j, ∃ b, oracle j = SubRes.ok b) :
    ∀ fuel st, st.exc = none →
      (driver_loop alpha_ids oracle num fuel st).exc = none := by
  intro fuel
  induction fuel with
  | zero => intro st h; exact h
  | succ fuel ih =>
    intro st h
    unfold driver_loop
    split
    · obtain ⟨b, hb⟩ := hok st.idx
      rw [hb]
      exact ih _ rfl
    · exact h

end DriverLemmas

/-- Counterexample to claim C6 as stated: with queue `["A"]` and requested
target 2, the single identifier succeeds, so successes (1) are below the
requested target (2), yet the final report carries no warning — the code
first clamps the target to the queue length. -/
theorem final_warning_cex :
    (submit_alpha_ids (some ["A"]) 2 (fun _ => SubRes.ok true)).result =
      Except.ok (DriverOutput.finished ⟨["A"], [], false⟩) ∧ (1 : Nat) < 2 := by
  exact ⟨by decide, by decide⟩

/-- Claim C6 (amended): for a nonempty queue and a run in which every
submission returns normally, the final report is produced and its warning
fires iff the number of successes is below `min(requested target, queue
length)` — the requested target is clamped to the queue length before the
comparison, so a queue smaller than the requested target that is fully
drained with successes produces no warning. -/
theorem final_warning_iff (f : List String) (num : Nat) (oracle : Nat → SubRes)
    (hne : load_alpha_ids f ≠ [])
    (hok : ∀ j, ∃ b, oracle j = SubRes.ok b) :
    ∃ r, (submit_alpha_ids (some f) num oracle).result =
        Except.ok (DriverOutput.finished r) ∧
      (r.warned = true ↔ r.successful.length < min num (load_alpha_ids f).length) := by
  set st := driver_loop (load_alpha_ids f) oracle
      (if num > (load_alpha_ids f).length then (load_alpha_ids f).length else num)
      (load_alpha_ids f).length
      { successful := [], failed := [], idx := 0, file := f, snaps := [], exc := none }
    with hst
  have hexc : st.exc = none :=
    driver_loop_no_exc (load_alpha_ids f) oracle _ hok (load_alpha_ids f).length _ rfl
  refine ⟨{ successful := st.successful, failed := st.failed,
            warned := decide (st.successful.length <
              (if num > (load_alpha_ids f).length then (load_alpha_ids f).length
               else num)) }, ?_, ?_⟩
  · simp only [submit_alpha_ids]
    rw [if_neg hne, ← hst]
    unfold driver_finish
    rw [hexc]
  · simp only [clamp_eq_min]
    exact decide_eq_true_iff

/-- Witness for C6 (amended) on a singleton queue fully drained with a
success: the report exists and no warning fires. -/
theorem final_warning_iff_witness :
    load_alpha_ids ["a"] ≠ [] ∧
    ∃ r, (submit_alpha_ids (some ["a"]) 1 (fun _ => SubRes.ok true)).result =
        Except.ok (DriverOutput.finished r) ∧
      (r.warned = true ↔ r.successful.length < min 1 (load_alpha_ids ["a"]).length) :=
  ⟨by decide, final_warning_iff ["a"] 1 (fun _ => SubRes.ok true) (by decide)
    (fun _ => ⟨true, rfl⟩)⟩

theorem driver_loop_interrupt (alpha_ids : List String) (oracle : Nat → SubRes)
    (bs : Nat → Bool) (num k : Nat)
    (hok : ∀ j, j < k → oracle j = SubRes.ok (bs j))
    (hint : oracle k = SubRes.interrupt)
    (hk : k < alpha_ids.length)
    (hcnt : (List.range k).countP bs < num) :
    ∀ fuel idx succ fld file snaps,
      idx ≤ k → k + 1 ≤ fuel + idx →
      succ.length = (List.range idx).countP bs →
      fld.length = idx - (List.range idx).countP bs →
      (driver_loop alpha_ids oracle num fuel
          ⟨succ, fld, idx, file, snaps, none⟩).exc = some PyExc.keyboardInterrupt ∧
      (driver_loop alpha_ids oracle num fuel
          ⟨succ, fld, idx, file, snaps, none⟩).successful.length =
        (List.range k).countP bs ∧
      (driver_loop alpha_ids oracle num fuel
          ⟨succ, fld, idx, file, snaps, none⟩).failed.length =
        k - (List.range k).countP bs ∧
      (driver_loop alpha_ids oracle num fuel
          ⟨succ, fld, idx, file, snaps, none⟩).idx = k := by
  intro fuel
  induction fuel with
  | zero =>
    intro idx succ fld file snaps hik hfuel _ _
    omega
  | succ fuel ih =>
    intro idx succ fld file snaps hik hfuel hsucc hfld
    have hmono : (List.range idx).countP bs ≤ (List.range k).countP bs := by
      have hsplit : k = idx + (k - idx) := by omega
      rw [hsplit, List.range_add, List.countP_append]
      omega
    have hcond : succ.length < num ∧ idx < alpha_ids.length := ⟨by omega, by omega⟩
    unfold driver_loop
    rw [dif_pos hcond]
    by_cases hik' : idx = k
    · subst hik'
      simp only [hint]
      exact ⟨trivial, hsucc, hfld, trivial⟩
    · have horacle : oracle idx = SubRes.ok (bs idx) := hok idx (by omega)
      simp only [horacle]
      have hc_le : (List.range idx).countP bs ≤ idx := by
        have := List.countP_le_length (p := bs) (l := List.range idx)
        simpa using this
      have hsucc' :
          (if bs idx then succ ++ [alpha_ids.get ⟨idx, hcond.2⟩] else succ).length =
            (List.range (idx + 1)).countP bs := by
        by_cases hb : bs idx <;>
          simp [hb, hsucc, List.range_succ, List.countP_append, List.countP_cons]
      have hfld' :
          (if bs idx then fld else fld ++ [alpha_ids.get ⟨idx, hcond.2⟩]).length =
            (idx + 1) - (List.range (idx + 1)).countP bs := by
        by_cases hb : bs idx
        · simp [hb, hfld, List.range_succ, List.countP_append, List.countP_cons]
        · simp [hb, hfld, List.range_succ, List.countP_append, List.countP_cons]
          omega
      exact ih (idx + 1) _ _ _ _ (by omega) (by omega) hsucc' hfld'

/-- Claim C8: if a `KeyboardInterrupt` arrives during the driver's
submission loop (at loop index `k`, after `k` normally-resolved
submissions), the driver reports the counts of successes and failures so
far and the count remaining, and the interruption propagates out of
`submit_alpha_ids` as an error — the outer `except Exception` handler
never absorbs it, since `KeyboardInterrupt` is not an `Exception`
subclass. -/
theorem interrupt_propagation (f : List String) (oracle : Nat → SubRes)
    (bs : Nat → Bool) (num k : Nat)
    (hok : ∀ j, j < k → oracle j = SubRes.ok (bs j))
    (hint : oracle k = SubRes.interrupt)
    (hk : k < (load_alpha_ids f).length)
    (hcnt : (List.range k).countP bs < min num (load_alpha_ids f).length) :
    (submit_alpha_ids (some f) num oracle).result =
      Except.error PyExc.keyboardInterrupt ∧
    (submit_alpha_ids (some f) num oracle).interruptReport =
      some ((List.range k).countP bs, k - (List.range k).countP bs,
        (load_alpha_ids f).length - k) := by
  have hne : load_alpha_ids f ≠ [] := by
    intro h
    rw [h] at hk
    simp at hk
  have hcnt' : (List.range k).countP bs <
      (if num > (load_alpha_ids f).length then (load_alpha_ids f).length else num) := by
    rw [clamp_eq_min]
    exact hcnt
  have hloop := driver_loop_interrupt (load_alpha_ids f) oracle bs
    (if num > (load_alpha_ids f).length then (load_alpha_ids f).length else num) k
    hok hint hk hcnt' (load_alpha_ids f).length 0 [] [] f []
    (by omega) (by omega) rfl rfl
  obtain ⟨hexc, hslen, hflen, hidx⟩ := hloop
  simp only [submit_alpha_ids]
  rw [if_neg hne]
  unfold driver_finish
  rw [hexc]
  simp only [isExceptionSubclass]
  refine ⟨rfl, ?_⟩
  simp only [if_true]
  rw [hslen, hflen, hidx]

/-- Witness for C8: queue of two ids, first submission succeeds, the
interrupt arrives on the second; the run reports (1 succeeded, 0 failed,
1 remaining) and raises. -/
theorem interrupt_propagation_witness :
    (submit_alpha_ids (some ["a", "b"]) 2
        (fun j => if j = 0 then SubRes.ok true else SubRes.interrupt)).result =
      Except.error PyExc.keyboardInterrupt ∧
    (submit_alpha_ids (some ["a", "b"]) 2
        (fun j => if j = 0 then SubRes.ok true else SubRes.interrupt)).interruptReport =
      some (1, 0, 1) := by
  have h := interrupt_propagation ["a", "b"]
      (fun j => if j = 0 then SubRes.ok true else SubRes.interrupt)
      (fun _ => true) 2 1
      (fun j hj => by
        have hj0 : j = 0 := by omega
        subst hj0
        rfl)
      rfl (by decide) (by decide)
  refine ⟨h.1, ?_⟩
  rw [h.2]
  decide

theorem mem_drop_iff_of_nodup {l : List String} (hnd : l.Nodup) (m : Nat) (x : String) :
    x ∈ l.drop m ↔ x ∈ l ∧ x ∉ l.take m := by
  constructor
  · intro hx
    refine ⟨List.mem_of_mem_drop hx, fun hxt => ?_⟩
    exact (List.disjoint_take_drop hnd (le_refl m)) hxt hx
  · rintro ⟨hxl, hxt⟩
    rw [← List.take_append_drop m l] at hxl
    rcases List.mem_append.mp hxl with h | h
    · exact absurd h hxt
    · exact h

theorem driver_loop_snaps (alpha_ids : List String) (oracle : Nat → SubRes) (num : Nat)
    (hclean : ∀ x ∈ alpha_ids, pyStrip x = x ∧ x ≠ "") :
    ∀ fuel st,
      load_alpha_ids st.file = alpha_ids.drop st.idx →
      st.snaps.length = st.idx →
      (∀ k, k < st.snaps.length → st.snaps[k]? = some (alpha_ids.drop (k + 1))) →
      ((driver_loop alpha_ids oracle num fuel st).snaps.length =
          (driver_loop alpha_ids oracle num fuel st).idx ∧
        ∀ k, k < (driver_loop alpha_ids oracle num fuel st).snaps.length →
          (driver_loop alpha_ids oracle num fuel st).snaps[k]? =
            some (alpha_ids.drop (k + 1))) := by
  intro fuel
  induction fuel with
  | zero => intro st _ h2 h3; exact ⟨h2, h3⟩
  | succ fuel ih =>
    intro st h1 h2 h3
    unfold driver_loop
    split
    case isFalse => exact ⟨h2, h3⟩
    case isTrue h =>
      rcases horacle : oracle st.idx with b | _ | _
      case interrupt => simp only [horacle]; exact ⟨h2, h3⟩
      case err => simp only [horacle]; exact ⟨h2, h3⟩
      case ok =>
        simp only [horacle]
        have hdrop : alpha_ids.drop st.idx =
            alpha_ids.get ⟨st.idx, h.2⟩ :: alpha_ids.drop (st.idx + 1) := by
          rw [List.get_eq_getElem]
          exact List.drop_eq_getElem_cons h.2
        have hmem : alpha_ids.get ⟨st.idx, h.2⟩ ∈ load_alpha_ids st.file := by
          rw [h1, hdrop]
          exact List.mem_cons_self _ _
        have hremove : remove_alpha_id_from_file st.file (alpha_ids.get ⟨st.idx, h.2⟩) =
            alpha_ids.drop (st.idx + 1) := by
          unfold remove_alpha_id_from_file
          simp only [hmem, if_pos]
          rw [h1, hdrop, List.erase_cons_head]
        have hload' : load_alpha_ids (alpha_ids.drop (st.idx + 1)) =
            alpha_ids.drop (st.idx + 1) :=
          load_of_clean (fun x hx => hclean x (List.mem_of_mem_drop hx))
        refine ih _ ?_ ?_ ?_
        · simp only [hremove]
          exact hload'
        · simp only [hremove]
          simp [h2]
        · intro k hk
          simp only [hremove] at hk ⊢
          simp only [List.length_append, List.length_cons, List.length_nil] at hk
          by_cases hksn : k < st.snaps.length
          · rw [List.getElem?_append_left hksn]
            exact h3 k hksn
          · have hkeq : k = st.snaps.length := by omega
            rw [hkeq, List.getElem?_concat_length, h2]

/-- Claim C1: for a duplicate-free queue (the data-model invariant), each
file state the driver writes between submissions — immediately after the
state machine returns a terminal outcome and before the next identifier is
touched — is exactly the loaded queue with its first `k + 1` identifiers
dropped: it contains exactly the identifiers not yet terminally resolved. -/
theorem submit_alpha_ids_queue_invariant (f : List String) (num : Nat)
    (oracle : Nat → SubRes) (hnd : (load_alpha_ids f).Nodup) :
    ∀ k, k < (submit_alpha_ids (some f) num oracle).snaps.length →
      (submit_alpha_ids (some f) num oracle).snaps[k]? =
          some ((load_alpha_ids f).drop (k + 1)) ∧
      ∀ l, (submit_alpha_ids (some f) num oracle).snaps[k]? = some l →
        ∀ x, x ∈ l ↔ (x ∈ load_alpha_ids f ∧ x ∉ (load_alpha_ids f).take (k + 1)) := by
  by_cases hne : load_alpha_ids f = []
  · intro k hk
    exfalso
    simp only [submit_alpha_ids, hne, if_pos] at hk
    simp at hk
  · have hclean : ∀ x ∈ load_alpha_ids f, pyStrip x = x ∧ x ≠ "" :=
      fun _ hx => mem_load_clean hx
    have hloop := driver_loop_snaps (load_alpha_ids f) oracle
      (if num > (load_alpha_ids f).length then (load_alpha_ids f).length else num)
      hclean (load_alpha_ids f).length
      { successful := [], failed := [], idx := 0, file := f, snaps := [], exc := none }
      (by simp) rfl (by intro k hk; simp at hk)
    have hsnaps : (submit_alpha_ids (some f) num oracle).snaps =
        (driver_loop (load_alpha_ids f) oracle
          (if num > (load_alpha_ids f).length then (load_alpha_ids f).length else num)
          (load_alpha_ids f).length
          { successful := [], failed := [], idx := 0, file := f, snaps := [],
            exc := none }).snaps := by
      simp only [submit_alpha_ids]
      rw [if_neg hne]
      unfold driver_finish
      rcases (driver_loop (load_alpha_ids f) oracle
          (if num > (load_alpha_ids f).length then (load_alpha_ids f).length else num)
          (load_alpha_ids f).length
          { successful := [], failed := [], idx := 0, file := f, snaps := [],
            exc := none }).exc with _ | e
      · rfl
      · rfl
    intro k hk
    have hget : (submit_alpha_ids (some f) num oracle).snaps[k]? =
        some ((load_alpha_ids f).drop (k + 1)) := by
      rw [hsnaps]
      rw [hsnaps] at hk
      exact hloop.2 k hk
    refine ⟨hget, fun l hl x => ?_⟩
    rw [hget] at hl
    cases hl
    exact mem_drop_iff_of_nodup hnd (k + 1) x

/-- Witness for C1: queue `["a", "b"]`, both submissions resolve; the
first written file state is `["b"]`, i.e. exactly the not-yet-resolved
identifier. -/
theorem submit_alpha_ids_queue_invariant_witness :
    (load_alpha_ids ["a", "b"]).Nodup ∧
    (submit_alpha_ids (some ["a", "b"]) 2 (fun _ => SubRes.ok true)).snaps[0]? =
      some ["b"] := by
  refine ⟨by decide, ?_⟩
  have h := submit_alpha_ids_queue_invariant ["a", "b"] 2 (fun _ => SubRes.ok true)
    (by decide) 0 (by decide)
  rw [h.1]
  decide

end AlphaCommit
